import Mathlib

/-!
Shallow embedding of the boot-time memory subsystem of the core-os-riscv
kernel: the physical frame allocator (`src/kernel/src/mem.rs`), the satp
construction (`src/kernel/src/arch.rs`) and the boot-hart / secondary-hart
bring-up sequence (`src/kernel/src/lib.rs`).

`usize` values are modelled as `Nat`, with the source's wrapping (release
mode) arithmetic made explicit as reduction modulo `2 ^ 64` wherever an
operation can overflow.  A Rust `panic!` (including an index-out-of-bounds
panic on the slot table) is fatal in this kernel; a function that can panic
is modelled as returning `Option`, with `none` for the panic.
-/

namespace KernelMem

/-- Modelled from the spec: `PAGE_ORDER` lives in `symbols.rs`, which is not
under `src/`; the spec fixes the page size at 4 KiB, so the order is 12. -/
def PAGE_ORDER : Nat := 12

/-- Modelled from the spec: `PAGE_SIZE` lives in `symbols.rs`, which is not
under `src/`; the spec fixes it at 4 KiB. -/
def PAGE_SIZE : Nat := 4096

/-- One past the largest `usize` value on riscv64. -/
def USZ : Nat := 2 ^ 64

/-- `MAX_PAGE` from `mem.rs`: `128 * 1024 * 1024 / (1 << 12)`. -/
def MAX_PAGE : Nat := 128 * 1024 * 1024 / (1 <<< 12)

/-- `align_val` from `mem.rs`: `(val + o) & !o` with `o = (1usize << order) - 1`.
The addition wraps at `2 ^ 64` in the source (release-mode `usize` add), and
`!o` is the 64-bit complement of the low-ones mask. -/
def align_val (val order : Nat) : Nat :=
  ((val + ((1 <<< order) - 1)) % USZ) &&& ((USZ - 1) - ((1 <<< order) - 1))

/-- `align_val_down` from `mem.rs`: `val & !((1usize << order) - 1)`. -/
def align_val_down (val order : Nat) : Nat :=
  val &&& ((USZ - 1) - ((1 <<< order) - 1))

/-- `page_down` from `mem.rs`. -/
def page_down (val : Nat) : Nat := align_val_down val PAGE_ORDER

/-- The allocator state of `mem.rs`: the fixed table of `MAX_PAGE` slots
(represented as a total function, read-guarded by `MAX_PAGE` wherever the
source indexes the array) and the base address of the managed pool. -/
structure Allocator where
  page_allocated : Nat → Nat
  base_addr : Nat

/-- `Allocator::new()` followed by `mem::init()`: every slot zeroed and
`base_addr` set (the source sets it to `align_val(HEAP_START, PAGE_ORDER)`;
the base is kept as a parameter here). -/
def allocNew (base : Nat) : Allocator :=
  { page_allocated := fun _ => 0, base_addr := base }

/-- The number of pages `allocate` carves out for a byte count:
`align_val(size, PAGE_ORDER) / PAGE_SIZE` from `mem.rs`. -/
def pageRequired (size : Nat) : Nat := align_val size PAGE_ORDER / PAGE_SIZE

/-- The inner scan of `Allocator::allocate`: starting at slot `idx`, check the
next `n` slots.  `some true` means all `n` slots are in bounds and free,
`some false` means a nonzero slot stopped the run, `none` is the fatal
index-out-of-bounds panic the source hits when the scan runs past the table. -/
def checkFrom (a : Allocator) (idx : Nat) : Nat → Option Bool
  | 0 => some true
  | n + 1 =>
    if idx < MAX_PAGE then
      if a.page_allocated idx ≠ 0 then some false
      else checkFrom a (idx + 1) n
    else none

/-- The marking loop of `Allocator::allocate`: every slot in `[i, i + pr)` is
set to `pr`. -/
def markRun (a : Allocator) (i pr : Nat) : Allocator :=
  { a with page_allocated := fun k => if i ≤ k ∧ k < i + pr then pr else a.page_allocated k }

/-- The outer first-fit scan of `Allocator::allocate` over slots
`s, s+1, ...` with `f` iterations remaining; returns the chosen index and the
marked table, `none` for either fatal panic (`no available page`, or the
index-out-of-bounds panic of the inner scan). -/
def allocLoop (a : Allocator) (pr : Nat) : Nat → Nat → Option (Nat × Allocator)
  | _, 0 => none
  | s, f + 1 =>
    if a.page_allocated s = 0 then
      match checkFrom a s pr with
      | none => none
      | some false => allocLoop a pr (s + 1) f
      | some true => some (s, markRun a s pr)
    else allocLoop a pr (s + 1) f

/-- `Allocator::allocate` from `mem.rs`: first-fit scan over `0..MAX_PAGE`,
returning `offset_id_of(i) = base_addr + i * PAGE_SIZE` (a `usize`
computation) on success, `none` on the fatal panic. -/
def allocate (a : Allocator) (size : Nat) : Option (Nat × Allocator) :=
  match allocLoop a (pageRequired size) 0 MAX_PAGE with
  | none => none
  | some (i, a2) => some ((a.base_addr + i * PAGE_SIZE) % USZ, a2)

/-- The local `id` of `Allocator::deallocate` (`offset_page_of`): the slot
index recovered from the pointer by the wrapping `usize` subtraction
`page - base_addr` followed by division by `PAGE_SIZE`. -/
def deallocId (a : Allocator) (addr : Nat) : Nat :=
  ((addr + (USZ - a.base_addr % USZ)) % USZ) / PAGE_SIZE

/-- `Allocator::deallocate` from `mem.rs`: recover the slot id from the
pointer (wrapping `usize` subtraction, then division by `PAGE_SIZE`), read the
stride stored there, zero that many consecutive slots.  `none` models the
index-out-of-bounds panic when the recovered id (or the run it announces)
falls outside the table. -/
def deallocate (a : Allocator) (addr : Nat) : Option Allocator :=
  if deallocId a addr < MAX_PAGE then
    if deallocId a addr + a.page_allocated (deallocId a addr) ≤ MAX_PAGE then
      some { a with
        page_allocated := fun k =>
          if deallocId a addr ≤ k ∧ k < deallocId a addr + a.page_allocated (deallocId a addr)
          then 0 else a.page_allocated k }
    else none
  else none

/-- `build_satp` from `arch.rs`:
`mode << 60 | (asid & 0xffff) << 44 | (addr >> 12) & 0xff_ffff_ffff`, after
the fatal alignment check `addr % PAGE_SIZE != 0`.  The mode shift is a
wrapping `usize` shift. -/
def build_satp (mode asid addr : Nat) : Option Nat :=
  if addr % PAGE_SIZE ≠ 0 then none
  else some (((mode <<< 60) % USZ) ||| ((asid &&& 0xffff) <<< 44) ||| ((addr >>> 12) &&& 0xffffffffff))

/-- A slot index `i` is a usable first-fit start for a `pr`-page request:
its own slot is free and the whole run `[i, i + pr)` lies inside the table
and is free.  (For `pr = 0` this degenerates to `i` being a free slot, which
is exactly the condition the source's scan tests before an empty inner loop.) -/
def fit (a : Allocator) (pr i : Nat) : Prop :=
  a.page_allocated i = 0 ∧ ∀ j, j < pr → (i + j < MAX_PAGE ∧ a.page_allocated (i + j) = 0)

instance (a : Allocator) (pr i : Nat) : Decidable (fit a pr i) := by
  unfold fit; exact inferInstance

/-- The allocator states reachable from a freshly initialized allocator by
successful `allocate` calls and by `deallocate` calls on run-start pointers
of live allocations.  The second component is the ghost list of live runs
`(start_slot, length_in_pages)`: a successful nonzero-size `allocate` that
picked slot `i` adds `(i, pageRequired size)` (the pointer it returned is
`base_addr + i * PAGE_SIZE`), a zero-page `allocate` adds nothing, and a
`deallocate` on the run-start pointer of a live run removes that run. -/
inductive Reach : Allocator → List (Nat × Nat) → Prop where
  | init (base : Nat) : Reach (allocNew base) []
  | allocZ {a : Allocator} {L : List (Nat × Nat)} (size i : Nat) {a2 : Allocator} :
      Reach a L → pageRequired size = 0 →
      allocLoop a (pageRequired size) 0 MAX_PAGE = some (i, a2) →
      Reach a2 L
  | allocP {a : Allocator} {L : List (Nat × Nat)} (size i : Nat) {a2 : Allocator} :
      Reach a L → pageRequired size ≠ 0 →
      allocLoop a (pageRequired size) 0 MAX_PAGE = some (i, a2) →
      Reach a2 ((i, pageRequired size) :: L)
  | free {a : Allocator} {L : List (Nat × Nat)} (i n : Nat) {a2 : Allocator} :
      Reach a L → (i, n) ∈ L →
      deallocate a ((a.base_addr + i * PAGE_SIZE) % USZ) = some a2 →
      Reach a2 (L.erase (i, n))

/-- The table produced by the zeroing loop of `deallocate`: slots
`[i, i + n)` cleared, everything else untouched. -/
def zeroRun (a : Allocator) (i n : Nat) : Allocator :=
  { a with page_allocated := fun k =>
      if i ≤ k ∧ k < i + n then 0 else a.page_allocated k }

/-- A live run record is internally consistent with the slot table: a
nonempty in-bounds run whose every slot stores the run length. -/
def RunOK (a : Allocator) (r : Nat × Nat) : Prop :=
  1 ≤ r.2 ∧ r.1 + r.2 ≤ MAX_PAGE ∧ ∀ j, j < r.2 → a.page_allocated (r.1 + j) = r.2

/-- Two runs occupy disjoint slot ranges. -/
def RunDisj (r s : Nat × Nat) : Prop := r.1 + r.2 ≤ s.1 ∨ s.1 + s.2 ≤ r.1

/-- The allocator invariant: every live run is consistent, live runs are
pairwise disjoint, and every nonzero slot belongs to some live run. -/
def GoodState (a : Allocator) (L : List (Nat × Nat)) : Prop :=
  (∀ r ∈ L, RunOK a r) ∧ L.Pairwise RunDisj ∧
    ∀ k, k < MAX_PAGE → a.page_allocated k ≠ 0 → ∃ r ∈ L, r.1 ≤ k ∧ k < r.1 + r.2

/-- Modelled from the spec: the permission bundles of the page-table
collaborator (`page::EntryAttributes`, not under `src/`).  Only the two
bundles the boot sequence uses are needed. -/
inductive Attr where
  | RX
  | RW
deriving DecidableEq

/-- Modelled from the spec: one mapping operation installed into the kernel
root table (`page::Table`, not under `src/`).  `idRange s e attr` is
`id_map_range(s, e, attr)`: every page-aligned address in `[s, e)` is mapped
to itself; `single va pa attr` is `map(va, pa, attr, 0)`: the page `va` is
mapped to `pa`. -/
inductive MapOp where
  | idRange (rstart rend : Nat) (attr : Attr)
  | single (va pa : Nat) (attr : Attr)
deriving DecidableEq

/-- Modelled from the spec: the mapping operation `op` maps the page-aligned
virtual address `va` with the read+write bundle. -/
def opMapsRW : MapOp → Nat → Prop
  | .idRange s e a, va => a = Attr.RW ∧ s ≤ va ∧ va < e
  | .single v _ a, va => a = Attr.RW ∧ v = va

/-- The constructed table maps the page containing `addr` read+write. -/
def mapsPageRW (t : List MapOp) (addr : Nat) : Prop :=
  ∃ op ∈ t, opMapsRW op (page_down addr)

/-- Modelled from the spec: the per-hart trap-context record
(`cpu::TrapFrame`, not under `src/`).  The spec names exactly the fields the
boot sequence populates: the cached translation value, the kernel stack
pointer, and the hart id. -/
structure TrapFrame where
  satp : Nat
  sp : Nat
  hartid : Nat

/-- An observable step of the boot sequence, recorded in program order:
mapping installations, the scratch-register write, the dynamic frame
allocation, and the write of the translation-control register. -/
inductive Ev where
  | mapRangeEv (rstart rend : Nat) (attr : Attr)
  | mapPageEv (va pa : Nat) (attr : Attr)
  | scratchWriteEv (v : Nat)
  | allocCallEv (pages : Nat)
  | satpWriteEv (v : Nat)

/-- Is the event a mapping installation into the root table? -/
def isMapEv : Ev → Bool
  | .mapRangeEv _ _ _ => true
  | .mapPageEv _ _ _ => true
  | _ => false

/-- Is the event the write of the translation-control (satp) register? -/
def isSatpWriteEv : Ev → Bool
  | .satpWriteEv _ => true
  | _ => false

/-- The event recording the installation of a mapping operation. -/
def evOfOp : MapOp → Ev
  | .idRange s e a => .mapRangeEv s e a
  | .single v p a => .mapPageEv v p a

/-- Modelled from the spec: the linker- and board-level constants of
`symbols.rs` and `cpu.rs` (neither under `src/`), plus the address of the
kernel root table singleton and the geometry of the trap-frame array. -/
structure Symbols where
  TEXT_START : Nat
  TEXT_END : Nat
  RODATA_START : Nat
  RODATA_END : Nat
  DATA_START : Nat
  DATA_END : Nat
  BSS_START : Nat
  BSS_END : Nat
  KERNEL_STACK_START : Nat
  KERNEL_STACK_END : Nat
  HEAP_START : Nat
  HEAP_SIZE : Nat
  UART_BASE_ADDR : Nat
  TRAMPOLINE_START : Nat
  TRAMPOLINE_TEXT_START : Nat
  rootTableAddr : Nat
  trapFrameBase : Nat
  trapFrameSize : Nat
  NHART : Nat

/-- The machine state the boot sequence touches: the trap-frame array
(total function, array bound `NHART` enforced at each indexing), the
`mscratch` register, the satp register, the frame allocator, and the root
table contents. -/
structure KernelState where
  frames : Nat → TrapFrame
  mscratch : Nat
  satpReg : Nat
  alloc : Allocator
  pgtable : List MapOp

/-- The eleven static mappings `kinit` installs, in source order
(`lib.rs` lines 69-117): text, rodata, data, bss, kernel stack, UART,
trampoline, heap, CLINT, and the two PLIC windows. -/
def kinitStatic (sym : Symbols) : List MapOp :=
  [ .idRange sym.TEXT_START sym.TEXT_END .RX,
    .idRange sym.RODATA_START sym.RODATA_END .RX,
    .idRange sym.DATA_START sym.DATA_END .RW,
    .idRange sym.BSS_START sym.BSS_END .RW,
    .idRange sym.KERNEL_STACK_START sym.KERNEL_STACK_END .RW,
    .single sym.UART_BASE_ADDR sym.UART_BASE_ADDR .RW,
    .single sym.TRAMPOLINE_START sym.TRAMPOLINE_TEXT_START .RX,
    .idRange sym.HEAP_START ((sym.HEAP_START + sym.HEAP_SIZE) % USZ) .RW,
    .idRange 0x02000000 0x0200ffff .RW,
    .idRange 0x0c000000 0x0c002000 .RW,
    .idRange 0x0c200000 0x0c208000 .RW ]

/-- `kinit` from `lib.rs`: allocator init, the static mappings, then
`build_satp(8, 0, root)` (fatal if the root is misaligned), the scratch
write, the population of hart 0's trap frame, the dynamic allocation and
mapping of a kernel stack page, and finally the satp register write.
Returns the final state (`none` when a fatal panic stopped the boot) and
the ordered event trace up to that point. -/
def kinit (sym : Symbols) (s0 : KernelState) : Option KernelState × List Ev :=
  let al := allocNew (align_val sym.HEAP_START PAGE_ORDER)
  let t := kinitStatic sym
  let evs := t.map evOfOp
  match build_satp 8 0 sym.rootTableAddr with
  | none => (none, evs)
  | some satpVal =>
    if 0 < sym.NHART then
      match allocate al 1 with
      | none => (none, evs ++ [.scratchWriteEv sym.trapFrameBase, .allocCallEv 1])
      | some (stackAddr, al2) =>
        let sp := (stackAddr + PAGE_SIZE) % USZ
        let stackOp : MapOp := .idRange stackAddr sp .RW
        let fr0 : TrapFrame := { satp := satpVal, sp := sp, hartid := 0 }
        ( some { frames := fun k => if k = 0 then fr0 else s0.frames k,
                 mscratch := sym.trapFrameBase,
                 satpReg := satpVal,
                 alloc := al2,
                 pgtable := t ++ [stackOp] },
          evs ++ [.scratchWriteEv sym.trapFrameBase, .allocCallEv 1,
                  evOfOp stackOp, .satpWriteEv satpVal] )
    else (none, evs)

/-- The terminal behaviour of a hart after its bring-up code ran: parked in
the `wait_forever` loop. -/
inductive HartFate where
  | parked

/-- The satp value `kinit` builds: `build_satp(8, 0, rootTableAddr)` on the
success path. -/
def satpValOf (sym : Symbols) : Nat :=
  ((8 <<< 60) % USZ) ||| ((0 &&& 0xffff) <<< 44) |||
    ((sym.rootTableAddr >>> 12) &&& 0xffffffffff)

/-- The stack page `kinit` carves out of the freshly initialized allocator:
the first-fit result on an all-free table is slot 0 of the heap. -/
def stackAddrOf (sym : Symbols) : Nat :=
  (align_val sym.HEAP_START PAGE_ORDER + 0 * PAGE_SIZE) % USZ

/-- The stack pointer `kinit` stores for hart 0: one past the end of the
allocated stack page. -/
def spOf (sym : Symbols) : Nat := (stackAddrOf sym + PAGE_SIZE) % USZ

/-- Concrete board constants for witnesses: a 4-hart system, a page-aligned
root table, and a small heap. -/
def symW : Symbols :=
  ⟨0, 0, 0, 0, 0, 0, 0, 0, 0, 0, 8192, 65536, 0, 0, 0, 4096, 0, 4096, 4⟩

/-- A pre-boot machine state for witnesses: zeroed trap frames, no mappings. -/
def s0W : KernelState := ⟨fun _ => ⟨0, 0, 0⟩, 0, 0, allocNew 0, []⟩

/-- Claim C1 exactly as stated: every successful `allocate(size)` with
`size > 0` rounds `size` up to `ceil(size / PAGE_SIZE)` pages, picks the
smallest index whose run of that many slots was entirely free (and inside the
table), marks each of those slots with the page count, and returns
`base_addr + i * PAGE_SIZE`, page-aligned whenever `base_addr` is. -/
def ClaimC1 : Prop :=
  ∀ (a : Allocator) (size p : Nat) (a2 : Allocator), 0 < size →
    allocate a size = some (p, a2) →
    ∃ i, i < MAX_PAGE ∧
      (∀ j, j < (size + PAGE_SIZE - 1) / PAGE_SIZE →
        (i + j < MAX_PAGE ∧ a.page_allocated (i + j) = 0)) ∧
      (∀ k, k < i → ¬ ∀ j, j < (size + PAGE_SIZE - 1) / PAGE_SIZE →
        (k + j < MAX_PAGE ∧ a.page_allocated (k + j) = 0)) ∧
      (∀ j, j < (size + PAGE_SIZE - 1) / PAGE_SIZE →
        a2.page_allocated (i + j) = (size + PAGE_SIZE - 1) / PAGE_SIZE) ∧
      p = (a.base_addr + i * PAGE_SIZE) % USZ ∧
      (a.base_addr % PAGE_SIZE = 0 → p % PAGE_SIZE = 0)

/-- Claim C3, general part, exactly as stated: `allocate(size)` fails exactly
when no contiguous free run of `ceil(size / PAGE_SIZE)` slots exists anywhere
in `[0, MAX_PAGE)`. -/
def ClaimC3 : Prop :=
  ∀ (a : Allocator) (size : Nat),
    allocate a size = none ↔
      ¬ ∃ i, i + (size + PAGE_SIZE - 1) / PAGE_SIZE ≤ MAX_PAGE ∧
        ∀ j, j < (size + PAGE_SIZE - 1) / PAGE_SIZE → a.page_allocated (i + j) = 0

/-- Claim C5 exactly as stated: for page-aligned roots and in-width mode/ASID,
`build_satp` returns mode in bits 63..60, the low 16 bits of the ASID in bits
59..44, and the root frame number `addr >> 12` masked to the full remaining
low field, bits 43..0 (i.e. masked to 44 bits). -/
def ClaimC5 : Prop :=
  ∀ (mode asid addr : Nat), mode < 16 → asid < 2 ^ 16 → addr % PAGE_SIZE = 0 →
    build_satp mode asid addr =
      some (mode * 2 ^ 60 + asid * 2 ^ 44 + (addr / 2 ^ 12) % 2 ^ 44)

/-- `kinit_hart` from `lib.rs`: point `mscratch` at this hart's trap frame,
record the hart id in it, then park in `wait_forever`.  `none` is the fatal
index-out-of-bounds panic when the hart id exceeds the trap-frame array. -/
def kinit_hart (sym : Symbols) (hartid : Nat) (s0 : KernelState) :
    Option (KernelState × HartFate) :=
  if hartid < sym.NHART then
    some ({ s0 with
      mscratch := sym.trapFrameBase + hartid * sym.trapFrameSize,
      frames := fun k =>
        if k = hartid then { s0.frames hartid with hartid := hartid } else s0.frames k },
      HartFate.parked)
  else none

example : pageRequired 1 = 1 := by decide
example : pageRequired 4096 = 1 := by decide
example : pageRequired 4097 = 2 := by decide
example : pageRequired 0 = 0 := by decide
example : pageRequired (2 ^ 64 - 1) = 0 := by decide
example : MAX_PAGE = 32768 := by decide
example : allocate (allocNew 0) 4096 = some (0, markRun (allocNew 0) 0 1) := rfl
example : build_satp 8 0 4097 = none := by decide
example : (deallocate (allocNew 0) 0).isSome = true := rfl

/-! ### Slot-table lemmas -/

theorem markRun_pa (a : Allocator) (i pr k : Nat) :
    (markRun a i pr).page_allocated k =
      if i ≤ k ∧ k < i + pr then pr else a.page_allocated k := rfl

theorem markRun_base (a : Allocator) (i pr : Nat) :
    (markRun a i pr).base_addr = a.base_addr := rfl

theorem checkFrom_some_true (a : Allocator) :
    ∀ n idx, checkFrom a idx n = some true ↔
      ∀ j, j < n → (idx + j < MAX_PAGE ∧ a.page_allocated (idx + j) = 0) := by
  intro n
  induction n with
  | zero => intro idx; simp [checkFrom]
  | succ n ih =>
    intro idx
    rw [show checkFrom a idx (n + 1) =
          (if idx < MAX_PAGE then
            (if a.page_allocated idx ≠ 0 then some false else checkFrom a (idx + 1) n)
          else none) from rfl]
    by_cases hb : idx < MAX_PAGE
    · rw [if_pos hb]
      by_cases hz : a.page_allocated idx = 0
      · rw [if_neg (by simpa using hz), ih (idx + 1)]
        constructor
        · intro h j hj
          rcases Nat.eq_zero_or_pos j with h0 | hpos
          · subst h0; exact ⟨by omega, by simpa using hz⟩
          · have h2 := h (j - 1) (by omega)
            have hh : idx + 1 + (j - 1) = idx + j := by omega
            rw [hh] at h2; exact h2
        · intro h j hj
          have h2 := h (j + 1) (by omega)
          have hh : idx + (j + 1) = idx + 1 + j := by omega
          rw [hh] at h2; exact h2
      · rw [if_pos hz]
        constructor
        · intro h; cases h
        · intro h; exact absurd (h 0 (by omega)).2 (by simpa using hz)
    · rw [if_neg hb]
      constructor
      · intro h; cases h
      · intro h; exact absurd (h 0 (by omega)).1 (by simpa using hb)

theorem checkFrom_none (a : Allocator) :
    ∀ n idx, idx ≤ MAX_PAGE → (checkFrom a idx n = none ↔
      (MAX_PAGE < idx + n ∧ ∀ m, idx ≤ m → m < MAX_PAGE → a.page_allocated m = 0)) := by
  intro n
  induction n with
  | zero =>
    intro idx hidx
    constructor
    · intro h; cases h
    · intro h; omega
  | succ n ih =>
    intro idx hidx
    rw [show checkFrom a idx (n + 1) =
          (if idx < MAX_PAGE then
            (if a.page_allocated idx ≠ 0 then some false else checkFrom a (idx + 1) n)
          else none) from rfl]
    by_cases hb : idx < MAX_PAGE
    · rw [if_pos hb]
      by_cases hz : a.page_allocated idx = 0
      · rw [if_neg (by simpa using hz), ih (idx + 1) (by omega)]
        constructor
        · intro h
          refine ⟨by omega, fun m hm1 hm2 => ?_⟩
          rcases Nat.eq_or_lt_of_le hm1 with he | hl
          · exact he ▸ hz
          · exact h.2 m (by omega) hm2
        · intro h
          exact ⟨by omega, fun m hm1 hm2 => h.2 m (by omega) hm2⟩
      · rw [if_pos hz]
        constructor
        · intro h; cases h
        · intro h; exact absurd (h.2 idx (by omega) hb) (by simpa using hz)
    · rw [if_neg hb]
      have he : idx = MAX_PAGE := by omega
      subst he
      constructor
      · intro _; exact ⟨by omega, fun m hm1 hm2 => by omega⟩
      · intro _; rfl

theorem allocLoop_some_iff (a : Allocator) (pr : Nat) :
    ∀ f s i a2, s + f ≤ MAX_PAGE →
      (allocLoop a pr s f = some (i, a2) ↔
        (s ≤ i ∧ i < s + f ∧ fit a pr i ∧ (∀ k, s ≤ k → k < i → ¬ fit a pr k) ∧
          a2 = markRun a i pr)) := by
  intro f
  induction f with
  | zero =>
    intro s i a2 _
    constructor
    · intro h; cases h
    · intro h; omega
  | succ f ih =>
    intro s i a2 hsf
    have hunf : allocLoop a pr s (f + 1) =
        (if a.page_allocated s = 0 then
          match checkFrom a s pr with
          | none => none
          | some false => allocLoop a pr (s + 1) f
          | some true => some (s, markRun a s pr)
        else allocLoop a pr (s + 1) f) := rfl
    by_cases hz : a.page_allocated s = 0
    · rcases hcf : checkFrom a s pr with _ | b
      · rw [hunf, if_pos hz, hcf]
        constructor
        · intro h; cases h
        · rintro ⟨h1, h2, h3, h4, h5⟩
          exfalso
          have hn := (checkFrom_none a pr s (by omega)).1 hcf
          have hpr : 1 ≤ pr := by omega
          have hb := (h3.2 (pr - 1) (by omega)).1
          omega
      · cases b with
        | false =>
          rw [hunf, if_pos hz, hcf]
          have hnf : ¬ fit a pr s := by
            intro hf
            have ht : checkFrom a s pr = some true := (checkFrom_some_true a pr s).2 hf.2
            rw [hcf] at ht; cases ht
          rw [ih (s + 1) i a2 (by omega)]
          constructor
          · rintro ⟨h1, h2, h3, h4, h5⟩
            refine ⟨by omega, by omega, h3, fun k hk1 hk2 => ?_, h5⟩
            rcases Nat.eq_or_lt_of_le hk1 with he | hlt
            · intro hf; exact hnf (he ▸ hf)
            · exact h4 k (by omega) hk2
          · rintro ⟨h1, h2, h3, h4, h5⟩
            have hi : s + 1 ≤ i := by
              rcases Nat.eq_or_lt_of_le h1 with he | hlt
              · exact absurd (he ▸ h3) hnf
              · omega
            exact ⟨hi, by omega, h3, fun k hk1 hk2 => h4 k (by omega) hk2, h5⟩
        | true =>
          rw [hunf, if_pos hz, hcf]
          have hfs : fit a pr s := ⟨hz, (checkFrom_some_true a pr s).1 hcf⟩
          constructor
          · intro h
            injection h with h1
            injection h1 with hA hB
            subst hA
            exact ⟨le_refl s, by omega, hfs, fun k hk1 hk2 => by omega, hB.symm⟩
          · rintro ⟨h1, h2, h3, h4, h5⟩
            have hi : i = s := by
              by_contra hne
              exact h4 s (le_refl s) (by omega) hfs
            subst hi
            rw [h5]
    · rw [hunf, if_neg hz, ih (s + 1) i a2 (by omega)]
      have hnf : ¬ fit a pr s := fun hf => hz hf.1
      constructor
      · rintro ⟨h1, h2, h3, h4, h5⟩
        refine ⟨by omega, by omega, h3, fun k hk1 hk2 => ?_, h5⟩
        rcases Nat.eq_or_lt_of_le hk1 with he | hlt
        · intro hf; exact hnf (he ▸ hf)
        · exact h4 k (by omega) hk2
      · rintro ⟨h1, h2, h3, h4, h5⟩
        have hi : s + 1 ≤ i := by
          rcases Nat.eq_or_lt_of_le h1 with he | hlt
          · exact absurd (he ▸ h3) hnf
          · omega
        exact ⟨hi, by omega, h3, fun k hk1 hk2 => h4 k (by omega) hk2, h5⟩

theorem allocLoop_none_iff (a : Allocator) (pr : Nat) :
    ∀ f s, s + f ≤ MAX_PAGE →
      (allocLoop a pr s f = none ↔ ∀ k, s ≤ k → k < s + f → ¬ fit a pr k) := by
  intro f
  induction f with
  | zero =>
    intro s _
    constructor
    · intro _ k hk1 hk2; omega
    · intro _; rfl
  | succ f ih =>
    intro s hsf
    have hunf : allocLoop a pr s (f + 1) =
        (if a.page_allocated s = 0 then
          match checkFrom a s pr with
          | none => none
          | some false => allocLoop a pr (s + 1) f
          | some true => some (s, markRun a s pr)
        else allocLoop a pr (s + 1) f) := rfl
    by_cases hz : a.page_allocated s = 0
    · rcases hcf : checkFrom a s pr with _ | b
      · rw [hunf, if_pos hz, hcf]
        constructor
        · intro _ k hk1 hk2 hf
          have hn := (checkFrom_none a pr s (by omega)).1 hcf
          have hpr : 1 ≤ pr := by omega
          have hb := (hf.2 (pr - 1) (by omega)).1
          omega
        · intro _; rfl
      · cases b with
        | false =>
          rw [hunf, if_pos hz, hcf]
          have hnf : ¬ fit a pr s := by
            intro hf
            have ht : checkFrom a s pr = some true := (checkFrom_some_true a pr s).2 hf.2
            rw [hcf] at ht; cases ht
          rw [ih (s + 1) (by omega)]
          constructor
          · intro h k hk1 hk2
            rcases Nat.eq_or_lt_of_le hk1 with he | hlt
            · intro hf; exact hnf (he ▸ hf)
            · exact h k (by omega) (by omega)
          · intro h k hk1 hk2
            exact h k (by omega) (by omega)
        | true =>
          rw [hunf, if_pos hz, hcf]
          have hfs : fit a pr s := ⟨hz, (checkFrom_some_true a pr s).1 hcf⟩
          constructor
          · intro h; cases h
          · intro h; exact absurd hfs (h s (le_refl s) (by omega))
    · rw [hunf, if_neg hz, ih (s + 1) (by omega)]
      have hnf : ¬ fit a pr s := fun hf => hz hf.1
      constructor
      · intro h k hk1 hk2
        rcases Nat.eq_or_lt_of_le hk1 with he | hlt
        · intro hf; exact hnf (he ▸ hf)
        · exact h k (by omega) (by omega)
      · intro h k hk1 hk2
        exact h k (by omega) (by omega)

theorem allocate_some_iff (a : Allocator) (size p : Nat) (a2 : Allocator) :
    allocate a size = some (p, a2) ↔
      ∃ i, i < MAX_PAGE ∧ fit a (pageRequired size) i ∧
        (∀ k, k < i → ¬ fit a (pageRequired size) k) ∧
        a2 = markRun a i (pageRequired size) ∧
        p = (a.base_addr + i * PAGE_SIZE) % USZ := by
  rcases hl : allocLoop a (pageRequired size) 0 MAX_PAGE with _ | ⟨j, b⟩
  · simp only [allocate, hl]
    constructor
    · intro h; cases h
    · rintro ⟨i, hi, hfit, hmin, ha2, hp⟩
      have hn := (allocLoop_none_iff a _ MAX_PAGE 0 (by omega)).1 hl i (by omega) (by omega)
      exact absurd hfit hn
  · have hj := (allocLoop_some_iff a _ MAX_PAGE 0 j b (by omega)).1 hl
    simp only [allocate, hl]
    constructor
    · intro h
      injection h with h1
      injection h1 with hp hb
      refine ⟨j, by omega, hj.2.2.1, fun k hk => hj.2.2.2.1 k (by omega) hk, ?_, hp.symm⟩
      rw [← hb]; exact hj.2.2.2.2
    · rintro ⟨i, hi, hfit, hmin, ha2, hp⟩
      have hij : i = j := by
        by_contra hne
        rcases Nat.lt_or_ge i j with hlt | hge
        · exact hj.2.2.2.1 i (by omega) hlt hfit
        · exact hmin j (by omega) hj.2.2.1
      subst hij
      rw [hp, ha2, hj.2.2.2.2]

theorem allocate_none_iff (a : Allocator) (size : Nat) :
    allocate a size = none ↔ ∀ k, k < MAX_PAGE → ¬ fit a (pageRequired size) k := by
  rcases hl : allocLoop a (pageRequired size) 0 MAX_PAGE with _ | ⟨j, b⟩
  · simp only [allocate, hl]
    constructor
    · intro _ k hk
      exact (allocLoop_none_iff a _ MAX_PAGE 0 (by omega)).1 hl k (by omega) (by omega)
    · intro _; trivial
  · have hj := (allocLoop_some_iff a _ MAX_PAGE 0 j b (by omega)).1 hl
    simp only [allocate, hl]
    constructor
    · intro h; cases h
    · intro h; exact absurd hj.2.2.1 (h j (by omega))

/-! ### Arithmetic of `align_val` -/

theorem and_high_mask {x : Nat} (hx : x < 2 ^ 64) :
    x &&& (2 ^ 64 - 2 ^ 12) = 2 ^ 12 * (x / 2 ^ 12) := by
  apply Nat.eq_of_testBit_eq
  intro i
  rw [Nat.testBit_and]
  have hmask : (2 : Nat) ^ 64 - 2 ^ 12 = (2 ^ 52 - 1) <<< 12 := by
    rw [Nat.shiftLeft_eq]; norm_num
  have hdiv : x / 2 ^ 12 = x >>> 12 := (Nat.shiftRight_eq_div_pow x 12).symm
  rw [hmask, Nat.testBit_shiftLeft, Nat.testBit_two_pow_sub_one,
    Nat.testBit_mul_pow_two, hdiv, Nat.testBit_shiftRight]
  by_cases h12 : 12 ≤ i
  · by_cases h64 : i < 64
    · have h52 : i - 12 < 52 := by omega
      have hi : 12 + (i - 12) = i := by omega
      simp [ge_iff_le, h12, h52, hi]
    · have hxf : x.testBit i = false :=
        Nat.testBit_lt_two_pow (lt_of_lt_of_le hx (Nat.pow_le_pow_right (by norm_num) (by omega)))
      have h52 : ¬ (i - 12 < 52) := by omega
      have hi : 12 + (i - 12) = i := by omega
      simp [ge_iff_le, h12, h52, hi, hxf]
  · simp [ge_iff_le, h12]

theorem align_val_order_twelve (v : Nat) (hv : v + 4095 < USZ) :
    align_val v PAGE_ORDER = 4096 * ((v + 4095) / 4096) := by
  have h1 : ((1 : Nat) <<< 12) - 1 = 4095 := by decide
  have h2 : (USZ - 1) - 4095 = 2 ^ 64 - 2 ^ 12 := by norm_num [USZ]
  unfold align_val PAGE_ORDER
  rw [h1, h2, Nat.mod_eq_of_lt (by exact hv)]
  exact and_high_mask hv

theorem pageRequired_eq (v : Nat) (hv : v + 4095 < USZ) :
    pageRequired v = (v + 4095) / 4096 := by
  unfold pageRequired PAGE_SIZE
  rw [align_val_order_twelve v hv]
  omega

theorem pageRequired_pos (v : Nat) (hv0 : 0 < v) (hv : v + 4095 < USZ) :
    1 ≤ pageRequired v := by
  rw [pageRequired_eq v hv]
  have : 4096 ≤ v + 4095 := by omega
  exact Nat.one_le_div_iff (by norm_num) |>.2 this

theorem fit_iff_of_pos (a : Allocator) (pr i : Nat) (hpr : 1 ≤ pr) :
    fit a pr i ↔ ∀ j, j < pr → (i + j < MAX_PAGE ∧ a.page_allocated (i + j) = 0) := by
  constructor
  · exact fun h => h.2
  · intro h
    refine ⟨?_, h⟩
    simpa using (h 0 hpr).2

/-! ### Claims about the frame allocator -/

/-- C1, counterexample: the claim as stated fails on the wrapping round-up.
At `size = 2 ^ 64 - 1` the source computes
`align_val(size, PAGE_ORDER) = 0` (the `usize` addition wraps), so
`allocate` succeeds on a fresh allocator while marking zero slots, whereas
the claim demands a free run of `ceil(size / PAGE_SIZE) = 2 ^ 52` slots
inside the `MAX_PAGE = 32768`-slot table. -/
theorem claim_C1_counterexample : ¬ ClaimC1 := by
  intro h
  have hpr0 : pageRequired (2 ^ 64 - 1) = 0 := by decide
  have hsome : allocate (allocNew 0) (2 ^ 64 - 1) =
      some ((0 + 0 * PAGE_SIZE) % USZ, markRun (allocNew 0) 0 (pageRequired (2 ^ 64 - 1))) :=
    (allocate_some_iff _ _ _ _).2
      ⟨0, by decide, by rw [hpr0]; exact ⟨rfl, fun j hj => absurd hj (by omega)⟩,
        fun k hk => by omega, rfl, rfl⟩
  obtain ⟨i, hi, hfree, -, -, -, -⟩ :=
    h (allocNew 0) (2 ^ 64 - 1) _ _ (by norm_num) hsome
  have hb := (hfree MAX_PAGE (by decide)).1
  omega

/-- C1 (amended): the claim holds for every `size` whose page round-up does
not overflow `usize`, i.e. `size + PAGE_SIZE ≤ 2 ^ 64`: a successful
`allocate(size)` with `size > 0` rounds `size` up to
`ceil(size / PAGE_SIZE)` pages, picks the smallest slot index whose run of
that many slots lies inside the table and was entirely free, marks each of
those slots with the page count, and returns `base_addr + i * PAGE_SIZE`
(as a `usize`), page-aligned whenever `base_addr` is. -/
theorem claim_C1_amended (a : Allocator) (size p : Nat) (a2 : Allocator)
    (hpos : 0 < size) (hnof : size + PAGE_SIZE ≤ USZ)
    (h : allocate a size = some (p, a2)) :
    ∃ i, i < MAX_PAGE ∧
      pageRequired size = (size + PAGE_SIZE - 1) / PAGE_SIZE ∧
      (∀ j, j < (size + PAGE_SIZE - 1) / PAGE_SIZE →
        (i + j < MAX_PAGE ∧ a.page_allocated (i + j) = 0)) ∧
      (∀ k, k < i → ¬ ∀ j, j < (size + PAGE_SIZE - 1) / PAGE_SIZE →
        (k + j < MAX_PAGE ∧ a.page_allocated (k + j) = 0)) ∧
      (∀ j, j < (size + PAGE_SIZE - 1) / PAGE_SIZE →
        a2.page_allocated (i + j) = (size + PAGE_SIZE - 1) / PAGE_SIZE) ∧
      p = (a.base_addr + i * PAGE_SIZE) % USZ ∧
      (a.base_addr % PAGE_SIZE = 0 → p % PAGE_SIZE = 0) := by
  have hv : size + 4095 < USZ := by
    have h1 : PAGE_SIZE = 4096 := rfl
    omega
  have hceil : (size + PAGE_SIZE - 1) / PAGE_SIZE = pageRequired size := by
    rw [pageRequired_eq size hv]
    have h1 : PAGE_SIZE = 4096 := rfl
    rw [h1]
    omega
  have hpr : 1 ≤ pageRequired size := pageRequired_pos size hpos hv
  obtain ⟨i, hi, hfit, hmin, ha2, hp⟩ := (allocate_some_iff a size p a2).1 h
  refine ⟨i, hi, hceil.symm, ?_, ?_, ?_, hp, ?_⟩
  · rw [hceil]; exact hfit.2
  · intro k hk hall
    exact hmin k hk ((fit_iff_of_pos a _ k hpr).2 (by rw [← hceil]; exact hall))
  · intro j hj
    rw [hceil] at hj ⊢
    rw [ha2, markRun_pa]
    rw [if_pos (by omega)]
  · intro hal
    rw [hp]
    have h1 : PAGE_SIZE = 4096 := rfl
    have h2 : USZ = 2 ^ 64 := rfl
    rw [h1] at hal ⊢
    rw [h2]
    omega

/-- C1, witness: on a fresh allocator a one-byte request takes slot 0,
marks it with run length 1 and returns the base address. -/
theorem claim_C1_witness : (markRun (allocNew 0) 0 1).page_allocated 0 = 1 := by
  obtain ⟨i, hi, hpreq, hfree, hmin, hmark, hp, halign⟩ :=
    claim_C1_amended (allocNew 0) 1 0 (markRun (allocNew 0) 0 1)
      (by norm_num) (by norm_num [PAGE_SIZE, USZ]) rfl
  have hi0 : i = 0 := by
    have h2 : USZ = 2 ^ 64 := rfl
    have h3 : PAGE_SIZE = 4096 := rfl
    have h5 : (allocNew 0).base_addr = 0 := rfl
    rw [h2, h3, h5] at hp
    have h4 : MAX_PAGE = 32768 := rfl
    rw [h4] at hi
    omega
  have := hmark 0 (by norm_num [PAGE_SIZE])
  rw [hi0] at this
  simpa [PAGE_SIZE] using this

/-- C3, counterexample: the claim as stated fails at `size = 2 ^ 64 - 1`.
No free run of `ceil(size / PAGE_SIZE) = 2 ^ 52` slots can exist in the
32768-slot table, so the claim demands failure, but the source's wrapping
round-up computes zero pages and the call succeeds on a fresh allocator. -/
theorem claim_C3_counterexample : ¬ ClaimC3 := by
  intro h
  have hnone := (h (allocNew 0) (2 ^ 64 - 1)).2 ?_
  · have hsome : allocate (allocNew 0) (2 ^ 64 - 1) =
        some (0, markRun (allocNew 0) 0 0) := rfl
    rw [hnone] at hsome
    cases hsome
  · rintro ⟨i, hle, -⟩
    have hc : ((2 : Nat) ^ 64 - 1 + PAGE_SIZE - 1) / PAGE_SIZE = 2 ^ 52 := by
      norm_num [PAGE_SIZE]
    rw [hc] at hle
    have hm : MAX_PAGE = 32768 := rfl
    rw [hm] at hle
    omega

/-- C3 (amended): restricted to requests whose page round-up does not
overflow `usize` (`0 < size` and `size + PAGE_SIZE ≤ 2 ^ 64`), `allocate`
fails — fatally — exactly when no contiguous free run of
`ceil(size / PAGE_SIZE)` slots exists anywhere in `[0, MAX_PAGE)`; and on a
freshly initialized allocator a request for `MAX_PAGE` pages succeeds
exactly once: an identical second request with no intervening deallocation
fails. -/
theorem claim_C3_amended :
    (∀ (a : Allocator) (size : Nat), 0 < size → size + PAGE_SIZE ≤ USZ →
      (allocate a size = none ↔
        ¬ ∃ i, i + (size + PAGE_SIZE - 1) / PAGE_SIZE ≤ MAX_PAGE ∧
          ∀ j, j < (size + PAGE_SIZE - 1) / PAGE_SIZE → a.page_allocated (i + j) = 0)) ∧
    (∀ base, (∃ p a2, allocate (allocNew base) (MAX_PAGE * PAGE_SIZE) = some (p, a2)) ∧
      (∀ p a2, allocate (allocNew base) (MAX_PAGE * PAGE_SIZE) = some (p, a2) →
        allocate a2 (MAX_PAGE * PAGE_SIZE) = none)) := by
  constructor
  · intro a size hpos hnof
    have hv : size + 4095 < USZ := by
      have h1 : PAGE_SIZE = 4096 := rfl
      omega
    have hceil : (size + PAGE_SIZE - 1) / PAGE_SIZE = pageRequired size := by
      rw [pageRequired_eq size hv]
      have h1 : PAGE_SIZE = 4096 := rfl
      rw [h1]
      omega
    have hpr : 1 ≤ pageRequired size := pageRequired_pos size hpos hv
    rw [allocate_none_iff, hceil]
    constructor
    · rintro h ⟨i, hle, hzero⟩
      have hfit : fit a (pageRequired size) i := by
        refine (fit_iff_of_pos a _ i hpr).2 fun j hj => ⟨by omega, hzero j hj⟩
      exact h i (by omega) hfit
    · intro hne k hk hf
      refine hne ⟨k, ?_, fun j hj => (hf.2 j hj).2⟩
      have := (hf.2 (pageRequired size - 1) (by omega)).1
      omega
  · intro base
    have hpr : pageRequired (MAX_PAGE * PAGE_SIZE) = MAX_PAGE := by decide
    have hfit0 : fit (allocNew base) (pageRequired (MAX_PAGE * PAGE_SIZE)) 0 := by
      rw [hpr]
      exact ⟨rfl, fun j hj => ⟨by omega, rfl⟩⟩
    constructor
    · refine ⟨(base + 0 * PAGE_SIZE) % USZ,
        markRun (allocNew base) 0 (pageRequired (MAX_PAGE * PAGE_SIZE)),
        (allocate_some_iff _ _ _ _).2 ⟨0, ?_, hfit0, fun k hk => by omega, rfl, rfl⟩⟩
      have hm : MAX_PAGE = 32768 := rfl
      omega
    · intro p a2 hs
      obtain ⟨i, hi, hfit, hmin, ha2, hp⟩ := (allocate_some_iff _ _ _ _).1 hs
      have hi0 : i = 0 := by
        rcases Nat.eq_zero_or_pos i with h0 | h0
        · exact h0
        · exact absurd hfit0 (hmin 0 h0)
      subst hi0
      rw [allocate_none_iff]
      intro k hk hf
      have := hf.1
      rw [ha2, markRun_pa] at this
      rw [hpr] at this
      rw [if_pos (by omega)] at this
      have hm : MAX_PAGE = 32768 := rfl
      omega

/-- C3, witness: after the first whole-table request on a fresh allocator
succeeds, the identical second request fails with the fatal exhaustion
panic. -/
theorem claim_C3_witness :
    allocate (markRun (allocNew 0) 0 MAX_PAGE) (MAX_PAGE * PAGE_SIZE) = none := by
  have happ := (claim_C3_amended.2 0).2 ((0 + 0 * PAGE_SIZE) % USZ)
    (markRun (allocNew 0) 0 MAX_PAGE)
  apply happ
  have hpr : pageRequired (MAX_PAGE * PAGE_SIZE) = MAX_PAGE := by decide
  exact (allocate_some_iff _ _ _ _).2
    ⟨0, by decide, by rw [hpr]; exact ⟨rfl, fun j hj => ⟨by omega, rfl⟩⟩,
      fun k hk => by omega, by rw [hpr], rfl⟩

/-- C6: for the run-start pointer `base_addr + i * PAGE_SIZE` of a live
`n`-page allocation (its `n` slots hold `n`, as `allocate` left them),
`deallocate` recovers slot `i` from the pointer, zeroes exactly those `n`
slots, leaves every other slot and `base_addr` unchanged, and the freed
range is again available: a subsequent same-size allocation succeeds. -/
theorem claim_C6 (a : Allocator) (i n : Nat)
    (hn : 1 ≤ n) (hin : i + n ≤ MAX_PAGE)
    (hrun : ∀ j, j < n → a.page_allocated (i + j) = n) :
    ∃ a2, deallocate a ((a.base_addr + i * PAGE_SIZE) % USZ) = some a2 ∧
      (∀ j, j < n → a2.page_allocated (i + j) = 0) ∧
      (∀ k, (k < i ∨ i + n ≤ k) → a2.page_allocated k = a.page_allocated k) ∧
      a2.base_addr = a.base_addr ∧
      (∃ q a3, allocate a2 (n * PAGE_SIZE) = some (q, a3)) := by
  have hM : MAX_PAGE = 32768 := rfl
  have hP : PAGE_SIZE = 4096 := rfl
  have hU : USZ = 2 ^ 64 := rfl
  have hpi : a.page_allocated i = n := by simpa using hrun 0 hn
  have hid : deallocId a ((a.base_addr + i * PAGE_SIZE) % USZ) = i := by
    unfold deallocId
    rw [hP, hU] at *
    omega
  have hd : deallocate a ((a.base_addr + i * PAGE_SIZE) % USZ) =
      some { a with page_allocated := fun k =>
        if i ≤ k ∧ k < i + n then 0 else a.page_allocated k } := by
    unfold deallocate
    rw [hid, hpi, if_pos (by omega), if_pos (by omega)]
  refine ⟨_, hd, ?_, ?_, rfl, ?_⟩
  · intro j hj
    show (if i ≤ i + j ∧ i + j < i + n then 0 else a.page_allocated (i + j)) = 0
    rw [if_pos ⟨by omega, by omega⟩]
  · intro k hk
    show (if i ≤ k ∧ k < i + n then 0 else a.page_allocated k) = a.page_allocated k
    rw [if_neg (by omega)]
  · have hprn : pageRequired (n * PAGE_SIZE) = n := by
      rw [hP]
      rw [pageRequired_eq (n * 4096) (by rw [hU]; omega)]
      omega
    rcases hres : allocate { a with page_allocated := fun k =>
        if i ≤ k ∧ k < i + n then 0 else a.page_allocated k } (n * PAGE_SIZE) with _ | ⟨q, a3⟩
    · exfalso
      have hnone := (allocate_none_iff _ _).1 hres i (by omega)
      apply hnone
      rw [hprn]
      refine ⟨?_, fun j hj => ⟨by omega, ?_⟩⟩
      · show (if i ≤ i ∧ i < i + n then 0 else a.page_allocated i) = 0
        rw [if_pos ⟨by omega, by omega⟩]
      · show (if i ≤ i + j ∧ i + j < i + n then 0 else a.page_allocated (i + j)) = 0
        rw [if_pos ⟨by omega, by omega⟩]
    · exact ⟨q, a3, rfl⟩

/-- C6, witness: deallocating the run-start pointer of a live one-page
allocation at slot 0 zeroes that slot. -/
theorem claim_C6_witness :
    ∃ a2, deallocate (markRun (allocNew 0) 0 1)
        (((markRun (allocNew 0) 0 1).base_addr + 0 * PAGE_SIZE) % USZ) = some a2 ∧
      a2.page_allocated 0 = 0 := by
  obtain ⟨a2, hd, hzero, -, -, -⟩ :=
    claim_C6 (markRun (allocNew 0) 0 1) 0 1 (by omega) (by decide) (by decide)
  exact ⟨a2, hd, by simpa using hzero 0 (by omega)⟩

/-- C10: any request that rounds up to zero pages (`size = 0` does, and so
does any `size` in the wrapping range near `2 ^ 64`) succeeds whenever a
free slot exists: it marks nothing, leaves the table pointwise unchanged,
and returns `base_addr + i * PAGE_SIZE` for the first free slot `i`; a
second identical call returns the same pointer, and a following one-page
allocation hands out that very pointer as well. -/
theorem claim_C10 (a : Allocator) (size : Nat)
    (hz : pageRequired size = 0) (hfree : ∃ k, k < MAX_PAGE ∧ a.page_allocated k = 0) :
    ∃ i p a2, i < MAX_PAGE ∧ a.page_allocated i = 0 ∧
      (∀ k, k < i → a.page_allocated k ≠ 0) ∧
      p = (a.base_addr + i * PAGE_SIZE) % USZ ∧
      allocate a size = some (p, a2) ∧
      (∀ k, a2.page_allocated k = a.page_allocated k) ∧
      (∃ a3, allocate a2 size = some (p, a3)) ∧
      (∃ a4, allocate a2 PAGE_SIZE = some (p, a4)) := by
  obtain ⟨k0, hk0M, hk0⟩ := hfree
  have hex : ∃ k, a.page_allocated k = 0 := ⟨k0, hk0⟩
  have hiM : Nat.find hex < MAX_PAGE := lt_of_le_of_lt (Nat.find_min' hex hk0) hk0M
  have hspec : a.page_allocated (Nat.find hex) = 0 := Nat.find_spec hex
  have hmin : ∀ k, k < Nat.find hex → a.page_allocated k ≠ 0 :=
    fun k hk => Nat.find_min hex hk
  have hsame0 : ∀ k, (markRun a (Nat.find hex) 0).page_allocated k = a.page_allocated k := by
    intro k
    rw [markRun_pa, if_neg (by omega)]
  have hsame : ∀ k, (markRun a (Nat.find hex) (pageRequired size)).page_allocated k =
      a.page_allocated k := by
    intro k
    rw [markRun_pa, hz, if_neg (by omega)]
  refine ⟨Nat.find hex, (a.base_addr + Nat.find hex * PAGE_SIZE) % USZ,
    markRun a (Nat.find hex) (pageRequired size), hiM, hspec, hmin, rfl, ?_, hsame, ?_, ?_⟩
  · exact (allocate_some_iff _ _ _ _).2
      ⟨Nat.find hex, hiM,
        by rw [hz]; exact ⟨hspec, fun j hj => absurd hj (by omega)⟩,
        fun k hk hf => hmin k hk hf.1, rfl, rfl⟩
  · refine ⟨markRun (markRun a (Nat.find hex) (pageRequired size)) (Nat.find hex)
      (pageRequired size), (allocate_some_iff _ _ _ _).2
      ⟨Nat.find hex, hiM,
        by rw [hz]; exact ⟨by rw [hsame0]; exact hspec, fun j hj => absurd hj (by omega)⟩,
        fun k hk hf => hmin k hk (by rw [← hsame k]; exact hf.1), rfl, rfl⟩⟩
  · have hpr1 : pageRequired PAGE_SIZE = 1 := by decide
    refine ⟨markRun (markRun a (Nat.find hex) (pageRequired size)) (Nat.find hex)
      (pageRequired PAGE_SIZE), (allocate_some_iff _ _ _ _).2
      ⟨Nat.find hex, hiM,
        by rw [hpr1]
           refine ⟨by rw [hsame]; exact hspec, fun j hj => ?_⟩
           have hj0 : j = 0 := by omega
           subst hj0
           exact ⟨by simpa using hiM, by rw [hsame]; simpa using hspec⟩,
        fun k hk hf => hmin k hk (by rw [← hsame k]; exact hf.1), rfl, rfl⟩⟩

/-- C10, witness: on a fresh allocator, `allocate 0` succeeds and leaves
the slot table pointwise unchanged. -/
theorem claim_C10_witness :
    ∃ p a2, allocate (allocNew 7) 0 = some (p, a2) ∧
      ∀ k, a2.page_allocated k = (allocNew 7).page_allocated k := by
  obtain ⟨i, p, a2, -, -, -, -, hs, hsame, -, -⟩ :=
    claim_C10 (allocNew 7) 0 (by decide) ⟨0, by decide, rfl⟩
  exact ⟨p, a2, hs, hsame⟩

/-! ### Claims about `build_satp` -/

/-- C4: `build_satp` is fatal (panics, before any control-register write)
exactly on misaligned page-table roots: for every mode and ASID within
their field widths it returns `none` whenever `addr % PAGE_SIZE ≠ 0` and
returns normally whenever `addr` is page-aligned. -/
theorem claim_C4 (mode asid addr : Nat) (hm : mode < 16) (ha : asid < 2 ^ 16) :
    (addr % PAGE_SIZE ≠ 0 → build_satp mode asid addr = none) ∧
    (addr % PAGE_SIZE = 0 → (build_satp mode asid addr).isSome = true) := by
  constructor
  · intro h
    unfold build_satp
    rw [if_pos h]
  · intro h
    unfold build_satp
    rw [if_neg (by simp [h])]
    rfl

/-- C4, witness: `0x1001` is rejected, `0x1000` is accepted. -/
theorem claim_C4_witness :
    build_satp 8 0 4097 = none ∧ (build_satp 8 0 4096).isSome = true :=
  ⟨(claim_C4 8 0 4097 (by norm_num) (by norm_num)).1 (by decide),
   (claim_C4 8 0 4096 (by norm_num) (by norm_num)).2 (by decide)⟩

/-- C5, counterexample: the source masks the root frame number with
`0xff_ffff_ffff`, a 40-bit mask, not the full 44-bit low field (bits 43..0)
the claim describes.  At `addr = 2 ^ 52` (page-aligned, frame number
`2 ^ 40`) the produced value has a zero low field, while the claim requires
the low field `2 ^ 40`. -/
theorem claim_C5_counterexample : ¬ ClaimC5 := fun h =>
  absurd (h 8 0 (2 ^ 52) (by norm_num) (by norm_num) (by decide)) (by decide)

theorem build_satp_fields (mode asid addr : Nat) (hm : mode < 16) (ha : asid < 2 ^ 16)
    (hal : addr % PAGE_SIZE = 0) :
    build_satp mode asid addr =
      some (mode * 2 ^ 60 + asid * 2 ^ 44 + (addr / 2 ^ 12) % 2 ^ 40) := by
  unfold build_satp
  rw [if_neg (by simp [hal])]
  congr 1
  have hA : (mode <<< 60) % USZ = mode * 2 ^ 60 := by
    rw [Nat.shiftLeft_eq, Nat.mod_eq_of_lt]
    calc mode * 2 ^ 60 < 16 * 2 ^ 60 := (mul_lt_mul_right (by norm_num)).2 hm
      _ = USZ := by norm_num [USZ]
  have hB : (asid &&& 0xffff) <<< 44 = asid * 2 ^ 44 := by
    have h1 : (0xffff : Nat) = 2 ^ 16 - 1 := by norm_num
    rw [h1, Nat.and_pow_two_sub_one_eq_mod, Nat.mod_eq_of_lt ha, Nat.shiftLeft_eq]
  have hC : (addr >>> 12) &&& 0xffffffffff = (addr / 2 ^ 12) % 2 ^ 40 := by
    have h1 : (0xffffffffff : Nat) = 2 ^ 40 - 1 := by norm_num
    rw [h1, Nat.and_pow_two_sub_one_eq_mod, Nat.shiftRight_eq_div_pow]
  rw [hA, hB, hC]
  have hCl : (addr / 2 ^ 12) % 2 ^ 40 < 2 ^ 44 := by
    have h0 : (addr / 2 ^ 12) % 2 ^ 40 < 2 ^ 40 := Nat.mod_lt _ (by norm_num)
    omega
  have hBl : asid * 2 ^ 44 < 2 ^ 60 := by
    have h0 : asid * 2 ^ 44 < 2 ^ 16 * 2 ^ 44 :=
      Nat.mul_lt_mul_of_lt_of_le ha (Nat.le_refl _) (by norm_num)
    omega
  have h1 : (2 : Nat) ^ 60 * mode + asid * 2 ^ 44 = 2 ^ 60 * mode ||| asid * 2 ^ 44 :=
    Nat.mul_add_lt_is_or hBl mode
  have h2 : (2 : Nat) ^ 44 * (2 ^ 16 * mode + asid) + (addr / 2 ^ 12) % 2 ^ 40 =
      2 ^ 44 * (2 ^ 16 * mode + asid) ||| (addr / 2 ^ 12) % 2 ^ 40 :=
    Nat.mul_add_lt_is_or hCl _
  have hX : mode * 2 ^ 60 + asid * 2 ^ 44 = 2 ^ 44 * (2 ^ 16 * mode + asid) := by ring
  have hor1 : mode * 2 ^ 60 ||| asid * 2 ^ 44 = mode * 2 ^ 60 + asid * 2 ^ 44 := by
    rw [Nat.mul_comm mode (2 ^ 60)]
    exact h1.symm
  rw [hor1, hX]
  exact h2.symm

/-- C5 (amended): for page-aligned roots and in-width mode/ASID,
`build_satp` returns mode in bits 63..60, the 16-bit ASID in bits 59..44,
and the root frame number `addr >> 12` masked to 40 bits (bits 39..0 — the
mask in the source is `0xff_ffff_ffff`, four bits narrower than the low
field), i.e. `mode * 2^60 + asid * 2^44 + (addr / 2^12) % 2^40`. -/
theorem claim_C5_amended (mode asid addr : Nat) (hm : mode < 16) (ha : asid < 2 ^ 16)
    (hal : addr % PAGE_SIZE = 0) :
    build_satp mode asid addr =
      some (mode * 2 ^ 60 + asid * 2 ^ 44 + (addr / 2 ^ 12) % 2 ^ 40) :=
  build_satp_fields mode asid addr hm ha hal

/-- C5, witness: the standard Sv39 boot value, mode 8, ASID 0, an aligned
root. -/
theorem claim_C5_witness :
    build_satp 8 0 4096 = some (8 * 2 ^ 60 + 0 * 2 ^ 44 + (4096 / 2 ^ 12) % 2 ^ 40) :=
  claim_C5_amended 8 0 4096 (by norm_num) (by norm_num) (by decide)

/-! ### The run-length invariant (C2) -/

theorem zeroRun_pa (a : Allocator) (i n k : Nat) :
    (zeroRun a i n).page_allocated k =
      if i ≤ k ∧ k < i + n then 0 else a.page_allocated k := rfl

theorem runDisj_symm : Symmetric RunDisj := by
  intro r s h
  unfold RunDisj at *
  omega

theorem goodState_ext {a a2 : Allocator} {L : List (Nat × Nat)}
    (hpa : ∀ k, a2.page_allocated k = a.page_allocated k)
    (h : GoodState a L) : GoodState a2 L := by
  refine ⟨?_, h.2.1, ?_⟩
  · intro r hr
    have hok := h.1 r hr
    exact ⟨hok.1, hok.2.1, fun j hj => by rw [hpa]; exact hok.2.2 j hj⟩
  · intro k hk hnz
    exact h.2.2 k hk (by rw [← hpa]; exact hnz)

theorem deallocate_runStart (a : Allocator) (i n : Nat)
    (hn : 1 ≤ n) (hin : i + n ≤ MAX_PAGE) (hpi : a.page_allocated i = n) :
    deallocate a ((a.base_addr + i * PAGE_SIZE) % USZ) = some (zeroRun a i n) := by
  have hP : PAGE_SIZE = 4096 := rfl
  have hU : USZ = 2 ^ 64 := rfl
  have hM : MAX_PAGE = 32768 := rfl
  have hid : deallocId a ((a.base_addr + i * PAGE_SIZE) % USZ) = i := by
    unfold deallocId
    rw [hP, hU]
    rw [hM] at hin
    omega
  unfold deallocate zeroRun
  rw [hid, hpi, if_pos (by omega), if_pos (by omega)]

theorem reach_good : ∀ {a : Allocator} {L : List (Nat × Nat)}, Reach a L → GoodState a L := by
  intro a0 L0 h
  induction h with
  | init base =>
    refine ⟨?_, List.Pairwise.nil, ?_⟩
    · intro r hr
      exact absurd hr (List.not_mem_nil r)
    · intro k _ hk
      exact absurd rfl hk
  | allocZ size i hre hz hloop ih =>
    rename_i a L a2
    obtain ⟨-, -, -, -, ha2⟩ :=
      (allocLoop_some_iff a (pageRequired size) MAX_PAGE 0 i a2 (by omega)).1 hloop
    rw [ha2]
    refine goodState_ext ?_ ih
    intro k
    rw [markRun_pa, hz, if_neg (by omega)]
  | allocP size i hre hnz hloop ih =>
    rename_i a L a2
    obtain ⟨-, hiM, hfit, hmin, ha2⟩ :=
      (allocLoop_some_iff a (pageRequired size) MAX_PAGE 0 i a2 (by omega)).1 hloop
    have hpr1 : 1 ≤ pageRequired size := Nat.pos_of_ne_zero hnz
    have hipr : i + pageRequired size ≤ MAX_PAGE := by
      have hb := (hfit.2 (pageRequired size - 1) (by omega)).1
      omega
    have hzero : ∀ j, j < pageRequired size → a.page_allocated (i + j) = 0 :=
      fun j hj => (hfit.2 j hj).2
    rw [ha2]
    refine ⟨?_, ?_, ?_⟩
    · intro r hr
      rcases List.mem_cons.1 hr with he | hm
      · subst he
        refine ⟨hpr1, hipr, fun j hj => ?_⟩
        show (markRun a i (pageRequired size)).page_allocated (i + j) = pageRequired size
        rw [markRun_pa, if_pos ⟨by omega, by omega⟩]
      · have hok := ih.1 r hm
        refine ⟨hok.1, hok.2.1, fun j hj => ?_⟩
        rw [markRun_pa, if_neg ?_]
        · exact hok.2.2 j hj
        · rintro ⟨hc1, hc2⟩
          have hz2 := hzero (r.1 + j - i) (by omega)
          have heq : i + (r.1 + j - i) = r.1 + j := by omega
          rw [heq] at hz2
          have hv := hok.2.2 j hj
          have hr2 := hok.1
          omega
    · refine List.Pairwise.cons ?_ ih.2.1
      intro r hm
      have hok := ih.1 r hm
      show i + pageRequired size ≤ r.1 ∨ r.1 + r.2 ≤ i
      by_contra hnd
      push_neg at hnd
      rcases Nat.le_total i r.1 with hij | hij
      · have hz2 := hzero (r.1 - i) (by omega)
        have heq : i + (r.1 - i) = r.1 := by omega
        rw [heq] at hz2
        have hv := hok.2.2 0 hok.1
        rw [Nat.add_zero] at hv
        have hr2 := hok.1
        omega
      · have hv := hok.2.2 (i - r.1) (by omega)
        have heq : r.1 + (i - r.1) = i := by omega
        rw [heq] at hv
        have hz2 := hzero 0 (by omega)
        rw [Nat.add_zero] at hz2
        have hr2 := hok.1
        omega
    · intro k hk hnz2
      by_cases hin2 : i ≤ k ∧ k < i + pageRequired size
      · exact ⟨(i, pageRequired size), List.mem_cons_self _ _, hin2.1, hin2.2⟩
      · rw [markRun_pa, if_neg hin2] at hnz2
        obtain ⟨r, hrm, hcov⟩ := ih.2.2 k hk hnz2
        exact ⟨r, List.mem_cons_of_mem _ hrm, hcov⟩
  | free i n hre hmem hde ih =>
    rename_i a L a2
    have hok := ih.1 (i, n) hmem
    have hn1 : 1 ≤ n := hok.1
    have hinM : i + n ≤ MAX_PAGE := hok.2.1
    have hpi : a.page_allocated i = n := by
      have hv := hok.2.2 0 hok.1
      rw [Nat.add_zero] at hv
      exact hv
    rw [deallocate_runStart a i n hn1 hinM hpi] at hde
    injection hde with hA2
    rw [← hA2]
    have hnodup : L.Nodup := by
      refine List.Pairwise.imp_of_mem ?_ ih.2.1
      intro r s hrm hsm hdisj
      intro he
      subst he
      have h1 := (ih.1 r hrm).1
      have hdisj2 : r.1 + r.2 ≤ r.1 ∨ r.1 + r.2 ≤ r.1 := hdisj
      omega
    have hermem : ∀ r, r ∈ L.erase (i, n) → r ∈ L ∧ r ≠ (i, n) := by
      intro r hr
      refine ⟨List.mem_of_mem_erase hr, fun he => ?_⟩
      subst he
      exact List.Nodup.not_mem_erase hnodup hr
    have hdisj : ∀ r, r ∈ L.erase (i, n) → RunDisj r (i, n) := by
      intro r hr
      obtain ⟨hrm, hrne⟩ := hermem r hr
      exact List.Pairwise.forall runDisj_symm ih.2.1 hrm hmem hrne
    refine ⟨?_, List.Pairwise.sublist (List.erase_sublist _ _) ih.2.1, ?_⟩
    · intro r hr
      obtain ⟨hrm, hrne⟩ := hermem r hr
      have hok2 := ih.1 r hrm
      have hdj : r.1 + r.2 ≤ i ∨ i + n ≤ r.1 := hdisj r hr
      refine ⟨hok2.1, hok2.2.1, fun j hj => ?_⟩
      rw [zeroRun_pa, if_neg ?_]
      · exact hok2.2.2 j hj
      · omega
    · intro k hk hnz2
      rw [zeroRun_pa] at hnz2
      by_cases hin2 : i ≤ k ∧ k < i + n
      · rw [if_pos hin2] at hnz2
        exact absurd rfl hnz2
      · rw [if_neg hin2] at hnz2
        obtain ⟨r, hrm, hcov⟩ := ih.2.2 k hk hnz2
        have hrne : r ≠ (i, n) := by
          intro he
          subst he
          exact hin2 ⟨hcov.1, hcov.2⟩
        exact ⟨r, (List.mem_erase_of_ne hrne).2 hrm, hcov⟩

/-- C2: in every allocator state reachable from a freshly initialized
allocator by successful `allocate` calls and by `deallocate` calls on
run-start pointers of live allocations, every live run `(i, n)` has all `n`
of its slots holding exactly `n`, from the moment it is allocated until the
moment it is freed. -/
theorem claim_C2 (a : Allocator) (L : List (Nat × Nat)) (h : Reach a L) :
    ∀ i n, (i, n) ∈ L → ∀ j, j < n → a.page_allocated (i + j) = n := by
  intro i n hmem j hj
  exact ((reach_good h).1 (i, n) hmem).2.2 j hj

/-- C2, witness: after one two-page allocation from a fresh allocator, both
slots of the live run hold 2. -/
theorem claim_C2_witness : (markRun (allocNew 3) 0 2).page_allocated 1 = 2 := by
  have h0 : Reach (allocNew 3) [] := Reach.init 3
  have hloop : allocLoop (allocNew 3) (pageRequired 8192) 0 MAX_PAGE =
      some (0, markRun (allocNew 3) 0 (pageRequired 8192)) := rfl
  have h2 := Reach.allocP 8192 0 h0 (by decide) hloop
  have hp2 : pageRequired 8192 = 2 := by decide
  rw [hp2] at h2
  have := claim_C2 _ _ h2 0 2 (List.mem_singleton_self _) 1 (by omega)
  simpa using this

/-! ### The boot sequence -/

theorem allocate_one_fresh (base : Nat) :
    allocate (allocNew base) 1 = some ((base + 0 * PAGE_SIZE) % USZ, markRun (allocNew base) 0 1) := by
  have hp : pageRequired 1 = 1 := by decide
  refine (allocate_some_iff _ _ _ _).2 ⟨0, by decide, ?_, fun k hk => by omega, by rw [hp], rfl⟩
  rw [hp]
  refine ⟨rfl, fun j hj => ⟨?_, rfl⟩⟩
  have hM : MAX_PAGE = 32768 := rfl
  omega

theorem align_val_lt_USZ (v order : Nat) : align_val v order < USZ := by
  have h1 := Nat.and_le_right (n := (v + ((1 <<< order) - 1)) % USZ)
    (m := (USZ - 1) - ((1 <<< order) - 1))
  have h2 : USZ - 1 - ((1 <<< order) - 1) < USZ := by
    have : 0 < USZ := by norm_num [USZ]
    omega
  exact lt_of_le_of_lt h1 h2

theorem stackAddrOf_eq (sym : Symbols) :
    stackAddrOf sym = align_val sym.HEAP_START PAGE_ORDER := by
  unfold stackAddrOf
  have h1 := align_val_lt_USZ sym.HEAP_START PAGE_ORDER
  have hU : USZ = 2 ^ 64 := rfl
  have h2 : PAGE_SIZE = 4096 := rfl
  rw [hU] at h1 ⊢
  rw [h2]
  omega

theorem kinit_eq (sym : Symbols) (s0 : KernelState)
    (hroot : sym.rootTableAddr % PAGE_SIZE = 0) (hh : 0 < sym.NHART) :
    kinit sym s0 =
      (some { frames := fun k => if k = 0 then
                { satp := satpValOf sym, sp := spOf sym, hartid := 0 }
              else s0.frames k,
              mscratch := sym.trapFrameBase,
              satpReg := satpValOf sym,
              alloc := markRun (allocNew (align_val sym.HEAP_START PAGE_ORDER)) 0 1,
              pgtable := kinitStatic sym ++
                [MapOp.idRange (stackAddrOf sym) (spOf sym) Attr.RW] },
       (kinitStatic sym).map evOfOp ++
         [Ev.scratchWriteEv sym.trapFrameBase, Ev.allocCallEv 1,
          Ev.mapRangeEv (stackAddrOf sym) (spOf sym) Attr.RW,
          Ev.satpWriteEv (satpValOf sym)]) := by
  have hsat : build_satp 8 0 sym.rootTableAddr = some (satpValOf sym) := by
    unfold build_satp satpValOf
    rw [if_neg (by simp [hroot])]
  have hall : allocate (allocNew (align_val sym.HEAP_START PAGE_ORDER)) 1 =
      some (stackAddrOf sym, markRun (allocNew (align_val sym.HEAP_START PAGE_ORDER)) 0 1) :=
    allocate_one_fresh _
  simp only [kinit, hsat, hall, hh, evOfOp, spOf, if_true]

/-- C7: in the boot sequence `kinit`, every mapping installed into the
kernel root table — the static identity mappings, the UART and trampoline
mappings, and the dynamically allocated kernel-stack page — is installed
strictly before the translation-control (satp) register is written; no
satp write precedes any mapping step. -/
theorem claim_C7 (sym : Symbols) (s0 : KernelState)
    (hroot : sym.rootTableAddr % PAGE_SIZE = 0) (hh : 0 < sym.NHART) :
    ∀ (i j : Nat) (ei ej : Ev), (kinit sym s0).2[i]? = some ei →
      (kinit sym s0).2[j]? = some ej →
      isMapEv ei = true → isSatpWriteEv ej = true → i < j := by
  intro i j ei ej hi hj hmi hsj
  rw [kinit_eq sym s0 hroot hh] at hi hj
  simp only [kinitStatic, List.map_cons, List.map_nil, evOfOp, List.cons_append,
    List.nil_append] at hi hj
  obtain ⟨hil, hie⟩ := List.getElem?_eq_some_iff.1 hi
  obtain ⟨hjl, hje⟩ := List.getElem?_eq_some_iff.1 hj
  simp only [List.length_cons, List.length_nil] at hil hjl
  have hil15 : i < 15 := by omega
  have hjl15 : j < 15 := by omega
  have hj14 : j = 14 := by
    interval_cases j <;> simp at hje <;> subst hje <;> simp [isSatpWriteEv] at hsj <;> rfl
  subst hj14
  have hi14 : i ≠ 14 := by
    intro he
    subst he
    simp at hie
    subst hie
    simp [isMapEv] at hmi
  omega

/-- C7, witness: the first installed mapping (index 0) precedes the satp
write (index 14) on a concrete boot. -/
theorem claim_C7_witness :
    isMapEv (Ev.mapRangeEv 0 0 Attr.RX) = true ∧
      isSatpWriteEv (Ev.satpWriteEv (satpValOf symW)) = true ∧ (0 : Nat) < 14 :=
  ⟨rfl, rfl,
    claim_C7 symW s0W (by decide) (by decide) 0 14 (Ev.mapRangeEv 0 0 Attr.RX)
      (Ev.satpWriteEv (satpValOf symW)) rfl rfl rfl rfl⟩

theorem page_down_eq (x : Nat) (hx : x < USZ) : page_down x = 4096 * (x / 4096) := by
  unfold page_down align_val_down
  have h1 : (USZ - 1) - ((1 <<< PAGE_ORDER) - 1) = 2 ^ 64 - 2 ^ 12 := by decide
  rw [h1, and_high_mask (show x < 2 ^ 64 from hx)]
  norm_num

/-- C8: after `kinit` completes (page-aligned root below `2 ^ 52`, at least
one hart, and a heap that really contains its first two pages), hart 0's
trap-context record holds a nonzero satp value, equal to the value written
into the satp register, whose encoded root frame number (low field) equals
the physical frame number of the root table, and a stack pointer lying in a
page the constructed table maps read+write (it falls inside the identity-
mapped heap). -/
theorem claim_C8 (sym : Symbols) (s0 : KernelState)
    (hroot : sym.rootTableAddr % PAGE_SIZE = 0)
    (hrsz : sym.rootTableAddr < 2 ^ 52)
    (hh : 0 < sym.NHART)
    (hba : sym.HEAP_START ≤ align_val sym.HEAP_START PAGE_ORDER)
    (hbal : align_val sym.HEAP_START PAGE_ORDER % PAGE_SIZE = 0)
    (hheap : align_val sym.HEAP_START PAGE_ORDER + 2 * PAGE_SIZE ≤
      sym.HEAP_START + sym.HEAP_SIZE)
    (husz : sym.HEAP_START + sym.HEAP_SIZE < USZ) :
    ∃ st, (kinit sym s0).1 = some st ∧
      (st.frames 0).satp ≠ 0 ∧
      (st.frames 0).satp = st.satpReg ∧
      (st.frames 0).satp % 2 ^ 44 = sym.rootTableAddr / PAGE_SIZE ∧
      mapsPageRW st.pgtable ((st.frames 0).sp) := by
  have hfields := build_satp_fields 8 0 sym.rootTableAddr (by norm_num) (by norm_num) hroot
  have hsat : build_satp 8 0 sym.rootTableAddr = some (satpValOf sym) := by
    unfold build_satp satpValOf
    rw [if_neg (by simp [hroot])]
  have hval : satpValOf sym =
      8 * 2 ^ 60 + 0 * 2 ^ 44 + (sym.rootTableAddr / 2 ^ 12) % 2 ^ 40 :=
    Option.some.inj (hsat.symm.trans hfields)
  have hP : PAGE_SIZE = 4096 := rfl
  have hU : USZ = 2 ^ 64 := rfl
  have hsp : spOf sym = align_val sym.HEAP_START PAGE_ORDER + PAGE_SIZE := by
    unfold spOf
    rw [stackAddrOf_eq]
    rw [hP, hU]
    rw [hP] at hheap
    rw [hU] at husz
    omega
  rw [kinit_eq sym s0 hroot hh]
  refine ⟨_, rfl, ?_, rfl, ?_, ?_⟩
  · show satpValOf sym ≠ 0
    rw [hval]
    have hA : (0 : Nat) < 2 ^ 60 := by positivity
    omega
  · show satpValOf sym % 2 ^ 44 = sym.rootTableAddr / PAGE_SIZE
    have e2 : (2 : Nat) ^ 12 = 4096 := by norm_num
    rw [hval, hP, e2]
    omega
  · show mapsPageRW (kinitStatic sym ++ [MapOp.idRange (stackAddrOf sym) (spOf sym) Attr.RW])
      (spOf sym)
    have hsplt : spOf sym < USZ := by
      rw [hsp, hP, hU]
      rw [hU] at husz
      rw [hP] at hheap
      omega
    have hpd : page_down (spOf sym) = spOf sym := by
      rw [page_down_eq (spOf sym) hsplt]
      rw [hsp, hP]
      rw [hP] at hbal
      omega
    refine ⟨MapOp.idRange sym.HEAP_START ((sym.HEAP_START + sym.HEAP_SIZE) % USZ) Attr.RW,
      ?_, ?_⟩
    · apply List.mem_append_left
      simp [kinitStatic]
    · refine ⟨rfl, ?_, ?_⟩
      · rw [hpd, hsp]
        omega
      · rw [hpd, hsp, Nat.mod_eq_of_lt husz, hP]
        rw [hP] at hheap
        omega

/-- C8, witness: a concrete boot on the witness board constants yields a
populated hart-0 trap frame with a nonzero cached satp. -/
theorem claim_C8_witness :
    ∃ st, (kinit symW s0W).1 = some st ∧ (st.frames 0).satp ≠ 0 := by
  obtain ⟨st, h1, h2, -, -, -⟩ := claim_C8 symW s0W (by decide) (by decide) (by decide)
    (by decide) (by decide) (by decide) (by decide)
  exact ⟨st, h1, h2⟩

/-- C9: for every nonzero hart id within the trap-frame array bounds,
`kinit_hart` points the scratch register at that hart's trap frame, sets
the record's hart-id field to the id, leaves its satp and stack-pointer
fields untouched in their pre-bootstrap state, modifies no other hart's
record (nor the satp register), and then parks the hart in the permanent
wait loop. -/
theorem claim_C9 (sym : Symbols) (s0 : KernelState) (id : Nat)
    (hpos : 0 < id) (hlt : id < sym.NHART) :
    ∃ s1 fate, kinit_hart sym id s0 = some (s1, fate) ∧
      s1.mscratch = sym.trapFrameBase + id * sym.trapFrameSize ∧
      (s1.frames id).hartid = id ∧
      (s1.frames id).satp = (s0.frames id).satp ∧
      (s1.frames id).sp = (s0.frames id).sp ∧
      (∀ k, k ≠ id → s1.frames k = s0.frames k) ∧
      s1.satpReg = s0.satpReg ∧
      fate = HartFate.parked := by
  unfold kinit_hart
  rw [if_pos hlt]
  refine ⟨_, _, rfl, rfl, ?_, ?_, ?_, ?_, rfl, rfl⟩
  · simp
  · simp
  · simp
  · intro k hk
    simp [hk]

/-- C9, witness: `kinit_hart 3` on the 4-hart witness system sets hart 3's
id, leaves its satp and stack pointer unset (zero), and parks. -/
theorem claim_C9_witness :
    ∃ s1 fate, kinit_hart symW 3 s0W = some (s1, fate) ∧
      (s1.frames 3).hartid = 3 ∧ (s1.frames 3).satp = 0 ∧ (s1.frames 3).sp = 0 ∧
      fate = HartFate.parked := by
  obtain ⟨s1, fate, h1, -, h3, h4, h5, -, -, h8⟩ :=
    claim_C9 symW s0W 3 (by norm_num) (by decide)
  exact ⟨s1, fate, h1, h3, by rw [h4]; rfl, by rw [h5]; rfl, h8⟩

end KernelMem
